import Mathlib

/-!
Verification of the harvest-mcp server core: the relative-date resolution
engine (`parseRelativeDate` and its helpers from `src/index.ts`) and the
credential/dispatch contract shared by every tool handler.

Dates are modelled as integers counting days since 1970-01-01 (the civil
day encoded by a JavaScript `Date` at local midnight).  The proleptic
Gregorian conversions performed by the `Date` library (`getFullYear`,
`getMonth`, `getDate`, `getDay`, `setDate`, `setMonth` rollover) are
embedded via the standard day-number/civil-triple algorithms below.
-/

namespace HarvestMcp

/-! ## Civil calendar model (the `Date` library) -/

/-- Year-of-era extraction from a day-of-era `n ∈ [0, 146096]`. -/
def yoeOf (n : ℕ) : ℕ := (n - n / 1460 + n / 36524 - n / 146096) / 365

/-- First day-of-era of year-of-era `y` (March-based years). -/
def yearStart (y : ℕ) : ℕ := 365 * y + y / 4 - y / 100

/-- Day-of-year (from March 1) of a day-of-era `n`. -/
def doyOf (n : ℕ) : ℕ := n - yearStart (yoeOf n)

/-- March-based month index `[0, 11]` of a day-of-year. -/
def mpOf (doy : ℕ) : ℕ := (5 * doy + 2) / 153

/-- Day-of-month `[1, 31]` of a day-of-year. -/
def domOf (doy : ℕ) : ℕ := doy - (153 * mpOf doy + 2) / 5 + 1

/-- Civil month `[1, 12]` of a day-of-year. -/
def monthOf (doy : ℕ) : ℕ := if mpOf doy < 10 then mpOf doy + 3 else mpOf doy - 9

/-- Convert a day number (days since 1970-01-01) to the civil triple
`(year, month, day)`; this is what `getFullYear/getMonth+1/getDate` of the
corresponding `Date` return. -/
def civilFromDays (z : ℤ) : ℤ × ℕ × ℕ :=
  let n := ((z + 719468) % 146097).toNat
  let m := monthOf (doyOf n)
  ((z + 719468) / 146097 * 400 + yoeOf n + (if m ≤ 2 then 1 else 0),
    m, domOf (doyOf n))

/-- Convert a civil triple back to a day number.  A day component exceeding
the month length rolls over into the following month, exactly as the
`Date` constructor and `setDate`/`setMonth` normalize. -/
def daysFromCivil (y : ℤ) (m d : ℕ) : ℤ :=
  let yAdj := y - (if m ≤ 2 then 1 else 0)
  let yoe := (yAdj % 400).toNat
  yAdj / 400 * 146097 +
    ((yearStart yoe + ((153 * (if 2 < m then m - 3 else m + 9) + 2) / 5 + d - 1) : ℕ) : ℤ)
    - 719468

/-- Weekday index of a day number, `0 = Sunday, …, 6 = Saturday`; this is
`Date.getDay()` (1970-01-01 was a Thursday, index 4). -/
def weekdayOf (z : ℤ) : ℤ := (z + 4) % 7

set_option maxRecDepth 10000

theorem yoeOf_yearStart : ∀ y < 400, yoeOf (yearStart y) = y := by decide

theorem yoeOf_yearEnd : ∀ y < 399, yoeOf (yearStart (y + 1) - 1) = y := by decide

theorem yoeOf_last : yoeOf 146096 = 399 := by decide

theorem yearStart_step : ∀ y < 399, yearStart (y + 1) ≤ yearStart y + 366 := by decide

theorem monthTable : ∀ doy < 366,
    1 ≤ monthOf doy ∧ monthOf doy ≤ 12 ∧ 1 ≤ domOf doy ∧ domOf doy ≤ 31 ∧
    (if 2 < monthOf doy then monthOf doy - 3 else monthOf doy + 9) = mpOf doy ∧
    (153 * mpOf doy + 2) / 5 + domOf doy - 1 = doy := by decide

theorem yoeOf_mono {a b : ℕ} (hab : a ≤ b) (hb : b ≤ 146096) : yoeOf a ≤ yoeOf b := by
  have core : ∀ u v : ℕ, u ≤ v → u - u / 1460 + u / 36524 ≤ v - v / 1460 + v / 36524 := by
    intro u v huv
    omega
  apply Nat.div_le_div_right
  rcases Nat.lt_or_ge b 146096 with hb1 | hb2
  · have ha0 : a / 146096 = 0 := Nat.div_eq_of_lt (by omega)
    have hb0 : b / 146096 = 0 := Nat.div_eq_of_lt (by omega)
    have := core a b hab
    omega
  · have hbeq : b = 146096 := by omega
    subst hbeq
    rcases Nat.lt_or_ge a 146096 with ha1 | ha2
    · have ha0 : a / 146096 = 0 := Nat.div_eq_of_lt (by omega)
      have h1 : a - a / 1460 + a / 36524 ≤ 146095 - 146095 / 1460 + 146095 / 36524 :=
        core a 146095 (by omega)
      have h2 : (146095 : ℕ) - 146095 / 1460 + 146095 / 36524 = 145998 := by norm_num
      have h3 : (146096 : ℕ) - 146096 / 1460 + 146096 / 36524 - 146096 / 146096 = 145999 := by
        norm_num
      omega
    · have haeq : a = 146096 := by omega
      subst haeq
      exact le_refl _

theorem yearBounds (n : ℕ) (hn : n < 146097) :
    yearStart (yoeOf n) ≤ n ∧ n - yearStart (yoeOf n) ≤ 365 ∧ yoeOf n ≤ 399 := by
  have hy399 : yoeOf n ≤ 399 := by
    have := yoeOf_mono (a := n) (b := 146096) (by omega) (by omega)
    rw [yoeOf_last] at this
    exact this
  have hstartLB : ∀ y : ℕ, y ≤ 399 → yearStart y ≤ 146097 := by
    intro y hy
    unfold yearStart
    omega
  have hlow : yearStart (yoeOf n) ≤ n := by
    by_contra hcon
    push_neg at hcon
    rcases Nat.eq_zero_or_pos (yoeOf n) with h0 | hpos
    · rw [h0] at hcon
      unfold yearStart at hcon
      omega
    · obtain ⟨y', hy'⟩ : ∃ y', yoeOf n = y' + 1 := ⟨yoeOf n - 1, by omega⟩
      rw [hy'] at hcon
      have hstep : n ≤ yearStart (y' + 1) - 1 := by omega
      have hy'lt : y' < 399 := by omega
      have hmono := yoeOf_mono (a := n) (b := yearStart (y' + 1) - 1) hstep
        (by have := hstartLB (y' + 1) (by omega); omega)
      rw [yoeOf_yearEnd y' hy'lt] at hmono
      omega
  refine ⟨hlow, ?_, hy399⟩
  rcases Nat.lt_or_ge (yoeOf n) 399 with hlt | hge
  · by_contra hcon
    push_neg at hcon
    have hnext : yearStart (yoeOf n + 1) ≤ n := by
      have := yearStart_step (yoeOf n) hlt
      omega
    have hmono := yoeOf_mono (a := yearStart (yoeOf n + 1)) (b := n) hnext (by omega)
    rw [yoeOf_yearStart (yoeOf n + 1) (by omega)] at hmono
    omega
  · have h399 : yoeOf n = 399 := by omega
    rw [h399]
    have : yearStart 399 = 145731 := by norm_num [yearStart]
    omega

/-- The civil conversion round-trip: reading the components of a `Date` and
rebuilding a `Date` from them yields the same day. -/
theorem daysFromCivil_civilFromDays (z : ℤ) :
    daysFromCivil (civilFromDays z).1 (civilFromDays z).2.1 (civilFromDays z).2.2 = z := by
  have hsplit := Int.ediv_add_emod (z + 719468) 146097
  have hnn : 0 ≤ (z + 719468) % 146097 := Int.emod_nonneg _ (by norm_num)
  have hlt : (z + 719468) % 146097 < 146097 := Int.emod_lt_of_pos _ (by norm_num)
  set era := (z + 719468) / 146097 with hera
  set n := ((z + 719468) % 146097).toNat with hndef
  have hzn : (n : ℤ) = (z + 719468) % 146097 := Int.toNat_of_nonneg hnn
  have hnlt : n < 146097 := by omega
  obtain ⟨hlow, hdoy, hyoe⟩ := yearBounds n hnlt
  obtain ⟨hm1, hm12, hd1, hd31, hmp, hrec⟩ := monthTable (doyOf n) (by unfold doyOf; omega)
  show daysFromCivil (era * 400 + yoeOf n + (if monthOf (doyOf n) ≤ 2 then 1 else 0))
      (monthOf (doyOf n)) (domOf (doyOf n)) = z
  simp only [daysFromCivil]
  set c : ℤ := if monthOf (doyOf n) ≤ 2 then 1 else 0 with hc
  have hyAdj : era * 400 + (yoeOf n : ℤ) + c - c = era * 400 + (yoeOf n : ℤ) := by ring
  rw [hyAdj]
  have hediv : (era * 400 + (yoeOf n : ℤ)) / 400 = era := by omega
  have hemod : ((era * 400 + (yoeOf n : ℤ)) % 400).toNat = yoeOf n := by omega
  rw [hediv, hemod, hmp]
  have hne : yearStart (yoeOf n) + ((153 * mpOf (doyOf n) + 2) / 5 + domOf (doyOf n) - 1) = n := by
    have : (153 * mpOf (doyOf n) + 2) / 5 + domOf (doyOf n) - 1 = doyOf n := hrec
    rw [this]
    unfold doyOf
    omega
  rw [hne]
  omega

theorem civilFromDays_injective {a b : ℤ} (h : civilFromDays a = civilFromDays b) : a = b := by
  have ha := daysFromCivil_civilFromDays a
  have hb := daysFromCivil_civilFromDays b
  rw [h] at ha
  rw [hb] at ha
  exact ha.symm

theorem civilFromDays_ranges (z : ℤ) :
    1 ≤ (civilFromDays z).2.1 ∧ (civilFromDays z).2.1 ≤ 12 ∧
    1 ≤ (civilFromDays z).2.2 ∧ (civilFromDays z).2.2 ≤ 31 := by
  have hnn : 0 ≤ (z + 719468) % 146097 := Int.emod_nonneg _ (by norm_num)
  have hlt : (z + 719468) % 146097 < 146097 := Int.emod_lt_of_pos _ (by norm_num)
  set n := ((z + 719468) % 146097).toNat with hndef
  have hnlt : n < 146097 := by omega
  obtain ⟨hlow, hdoy, hyoe⟩ := yearBounds n hnlt
  obtain ⟨hm1, hm12, hd1, hd31, hmp, hrec⟩ := monthTable (doyOf n) (by unfold doyOf; omega)
  exact ⟨hm1, hm12, hd1, hd31⟩


/-! ## Decimal formatting: the JS number-to-string conversion -/

/-- The character of a decimal digit value. -/
def digitChar (n : ℕ) : Char := Char.ofNat (48 + n)

/-- Fuel-driven decimal digit emitter. -/
def reprNatAux : ℕ → ℕ → List Char → List Char
  | 0, _, acc => acc
  | fuel + 1, n, acc =>
    if n < 10 then digitChar n :: acc
    else reprNatAux fuel (n / 10) (digitChar (n % 10) :: acc)

/-- Decimal representation of a natural number, as `String(n)` produces. -/
def reprNat (n : ℕ) : List Char := reprNatAux (n + 1) n []

/-- Reference form of the decimal representation, via `Nat.digits`. -/
def digitsRepr (n : ℕ) : List Char :=
  if n = 0 then [digitChar 0] else ((Nat.digits 10 n).map digitChar).reverse

/-- Decimal parse of a digit string, as `parseInt` evaluates an all-digit match. -/
def parseNat (l : List Char) : ℕ := l.foldl (fun a c => 10 * a + (c.toNat - 48)) 0

theorem digitsRepr_step {n : ℕ} (hn : 10 ≤ n) :
    digitsRepr n = digitsRepr (n / 10) ++ [digitChar (n % 10)] := by
  have hn0 : n ≠ 0 := by omega
  have hq0 : n / 10 ≠ 0 := by omega
  unfold digitsRepr
  rw [if_neg hn0, if_neg hq0]
  rw [Nat.digits_def' (by norm_num : 1 < 10) (by omega : 0 < n)]
  rw [List.map_cons, List.reverse_cons]

theorem reprNatAux_succ (fuel n : ℕ) (acc : List Char) :
    reprNatAux (fuel + 1) n acc =
      if n < 10 then digitChar n :: acc
      else reprNatAux fuel (n / 10) (digitChar (n % 10) :: acc) := rfl

theorem digitsRepr_small {n : ℕ} (h10 : n < 10) : digitsRepr n = [digitChar n] := by
  rcases Nat.eq_zero_or_pos n with h0 | hpos
  · subst h0; rfl
  · unfold digitsRepr
    rw [if_neg (by omega)]
    rw [Nat.digits_def' (by norm_num : 1 < 10) hpos]
    rw [Nat.div_eq_of_lt h10, Nat.digits_zero, Nat.mod_eq_of_lt h10]
    rfl

theorem reprNatAux_eq (fuel : ℕ) : ∀ n acc, n < 10 ^ (fuel + 1) →
    reprNatAux (fuel + 1) n acc = digitsRepr n ++ acc := by
  induction fuel with
  | zero =>
    intro n acc hn
    have h10 : n < 10 := by norm_num at hn; omega
    rw [reprNatAux_succ, if_pos h10, digitsRepr_small h10]
    rfl
  | succ fuel ih =>
    intro n acc hn
    by_cases h10 : n < 10
    · rw [reprNatAux_succ, if_pos h10, digitsRepr_small h10]
      rfl
    · rw [reprNatAux_succ, if_neg h10]
      have hdiv : n / 10 < 10 ^ (fuel + 1) := by
        have hmul : n < 10 ^ (fuel + 1) * 10 := by
          rw [← pow_succ]
          exact hn
        exact Nat.div_lt_of_lt_mul (by rw [mul_comm] at hmul; exact hmul)
      rw [ih (n / 10) (digitChar (n % 10) :: acc) hdiv]
      rw [show digitsRepr n = digitsRepr (n / 10) ++ [digitChar (n % 10)] from
        digitsRepr_step (by omega)]
      simp

theorem reprNat_eq (n : ℕ) : reprNat n = digitsRepr n := by
  have h1 : n < 10 ^ n := Nat.lt_pow_self (by norm_num) n
  have h2 : (10 : ℕ) ^ n ≤ 10 ^ (n + 1) := Nat.pow_le_pow_right (by norm_num) (by omega)
  have := reprNatAux_eq n n [] (by omega)
  unfold reprNat
  rw [this, List.append_nil]

theorem digitVal_digitChar : ∀ d < 10, (digitChar d).toNat - 48 = d := by decide

theorem parseNat_foldl (ds : List ℕ) (h : ∀ d ∈ ds, d < 10) (a : ℕ) :
    List.foldl (fun a c => 10 * a + (c.toNat - 48)) a ((ds.map digitChar).reverse) =
      a * 10 ^ ds.length + Nat.ofDigits 10 ds := by
  induction ds generalizing a with
  | nil => simp [Nat.ofDigits_nil]
  | cons e ds ih =>
    rw [List.map_cons, List.reverse_cons, List.foldl_append]
    rw [ih (fun d hd => h d (List.mem_cons_of_mem _ hd)) a]
    have he : e < 10 := h e (List.mem_cons_self _ _)
    simp only [List.foldl_cons, List.foldl_nil]
    rw [digitVal_digitChar e he, Nat.ofDigits_cons]
    simp only [List.length_cons, pow_succ]
    ring

theorem parseNat_reprNat (n : ℕ) : parseNat (reprNat n) = n := by
  rw [reprNat_eq]
  unfold digitsRepr parseNat
  rcases Nat.eq_zero_or_pos n with h0 | hpos
  · subst h0; rfl
  · rw [if_neg (by omega)]
    rw [parseNat_foldl (Nat.digits 10 n) (fun d hd => Nat.digits_lt_base (by norm_num) hd) 0]
    rw [Nat.ofDigits_digits]
    ring

theorem reprNat_injective {a b : ℕ} (h : reprNat a = reprNat b) : a = b := by
  have ha := parseNat_reprNat a
  have hb := parseNat_reprNat b
  rw [h] at ha
  rw [hb] at ha
  exact ha.symm

theorem reprNat_digits {n : ℕ} {c : Char} (hc : c ∈ reprNat n) : ∃ d, d < 10 ∧ c = digitChar d := by
  rw [reprNat_eq] at hc
  unfold digitsRepr at hc
  by_cases h0 : n = 0
  · rw [if_pos h0] at hc
    exact ⟨0, by norm_num, by simpa using hc⟩
  · rw [if_neg h0] at hc
    rw [List.mem_reverse, List.mem_map] at hc
    obtain ⟨d, hd, hcd⟩ := hc
    exact ⟨d, Nat.digits_lt_base (by norm_num) hd, hcd.symm⟩

theorem reprNat_ne_nil (n : ℕ) : reprNat n ≠ [] := by
  rw [reprNat_eq]
  unfold digitsRepr
  by_cases h0 : n = 0
  · rw [if_pos h0]; simp
  · rw [if_neg h0]
    simp [Nat.digits_ne_nil_iff_ne_zero.mpr h0]

/-- Decimal representation of an integer, as `String(z)` produces. -/
def reprInt (z : ℤ) : List Char := if z < 0 then '-' :: reprNat (-z).toNat else reprNat z.toNat

/-- Decimal parse of an optionally-signed digit string. -/
def parseIntL (l : List Char) : ℤ :=
  if l.head? = some '-' then -(parseNat l.tail : ℤ) else (parseNat l : ℤ)

theorem digitChar_ne_dash : ∀ d < 10, digitChar d ≠ '-' := by decide

theorem reprNat_head_ne_dash (n : ℕ) : (reprNat n).head? ≠ some '-' := by
  rcases hr : reprNat n with _ | ⟨c, t⟩
  · simp
  · intro h
    have hc : c = '-' := Option.some.inj (by simpa using h)
    obtain ⟨d, hd, hcd⟩ := reprNat_digits (n := n) (c := c)
      (by rw [hr]; exact List.mem_cons_self _ _)
    exact digitChar_ne_dash d hd (hcd.symm.trans hc)

theorem parseIntL_reprInt (z : ℤ) : parseIntL (reprInt z) = z := by
  by_cases hz : z < 0
  · have h1 : reprInt z = '-' :: reprNat (-z).toNat := by unfold reprInt; rw [if_pos hz]
    rw [h1]
    unfold parseIntL
    simp only [List.head?_cons, List.tail_cons]
    rw [if_pos trivial, parseNat_reprNat]
    omega
  · have h1 : reprInt z = reprNat z.toNat := by unfold reprInt; rw [if_neg hz]
    rw [h1]
    unfold parseIntL
    rw [if_neg (reprNat_head_ne_dash z.toNat), parseNat_reprNat]
    omega

theorem reprInt_injective {a b : ℤ} (h : reprInt a = reprInt b) : a = b := by
  have ha := parseIntL_reprInt a
  have hb := parseIntL_reprInt b
  rw [h] at ha
  rw [hb] at ha
  exact ha.symm

/-- Two-digit zero padding, as `String(n).padStart(2, "0")` produces. -/
def pad2 (n : ℕ) : List Char := if (reprNat n).length < 2 then '0' :: reprNat n else reprNat n

theorem pad2_length : ∀ n < 100, (pad2 n).length = 2 := by decide

theorem pad2_injective : ∀ a < 100, ∀ b < 100, pad2 a = pad2 b → a = b := by decide

/-- Format a day number as the canonical `YYYY-MM-DD` string; this is the
source helper `formatDate` applied to the `Date` holding that day. -/
def formatDate (z : ℤ) : String :=
  ⟨reprInt (civilFromDays z).1 ++ '-' :: pad2 (civilFromDays z).2.1 ++
    '-' :: pad2 (civilFromDays z).2.2⟩

theorem formatDate_injective {a b : ℤ} (h : formatDate a = formatDate b) : a = b := by
  obtain ⟨hma1, hma12, hda1, hda31⟩ := civilFromDays_ranges a
  obtain ⟨hmb1, hmb12, hdb1, hdb31⟩ := civilFromDays_ranges b
  unfold formatDate at h
  have hdata : reprInt (civilFromDays a).1 ++ '-' :: pad2 (civilFromDays a).2.1 ++
      '-' :: pad2 (civilFromDays a).2.2 =
      reprInt (civilFromDays b).1 ++ '-' :: pad2 (civilFromDays b).2.1 ++
      '-' :: pad2 (civilFromDays b).2.2 := congrArg String.data h
  have hma : (pad2 (civilFromDays a).2.1).length = 2 :=
    pad2_length (civilFromDays a).2.1 (by omega)
  have hmb : (pad2 (civilFromDays b).2.1).length = 2 :=
    pad2_length (civilFromDays b).2.1 (by omega)
  have hdaL : (pad2 (civilFromDays a).2.2).length = 2 :=
    pad2_length (civilFromDays a).2.2 (by omega)
  have hdbL : (pad2 (civilFromDays b).2.2).length = 2 :=
    pad2_length (civilFromDays b).2.2 (by omega)
  rw [List.append_assoc, List.append_assoc] at hdata
  obtain ⟨hy, hrest⟩ := List.append_inj' hdata (by simp [hma, hmb, hdaL, hdbL])
  have hyear := reprInt_injective hy
  rw [List.cons_append, List.cons_append] at hrest
  have hrest2 := List.tail_eq_of_cons_eq hrest
  obtain ⟨hm, hd⟩ := List.append_inj' hrest2 (by simp [hdaL, hdbL])
  have hmonth := pad2_injective _ (by omega) _ (by omega) hm
  have hday := pad2_injective _ (by omega) _ (by omega) (List.tail_eq_of_cons_eq hd)
  apply civilFromDays_injective
  have ha : civilFromDays a =
      ((civilFromDays a).1, (civilFromDays a).2.1, (civilFromDays a).2.2) := rfl
  have hb : civilFromDays b =
      ((civilFromDays b).1, (civilFromDays b).2.1, (civilFromDays b).2.2) := rfl
  rw [ha, hb, hyear, hmonth, hday]


/-! ## String utilities: the JS string operations used by the resolver -/

/-- The blank-character set of the source's string handling: ECMAScript
WhiteSpace together with LineTerminator, exactly the characters removed by
`trim` and matched by the blank class of the source's patterns (TAB, LF,
VT, FF, CR, space, NBSP, the Ogham space mark, the en-quad through
hair-space range, LS, PS, the narrow no-break space, the medium
mathematical space, the ideographic space and the zero-width no-break
space). -/
def isSpace (c : Char) : Bool :=
  decide (c.toNat = 9 ∨ c.toNat = 10 ∨ c.toNat = 11 ∨ c.toNat = 12 ∨ c.toNat = 13 ∨
    c.toNat = 32 ∨ c.toNat = 160 ∨ c.toNat = 5760 ∨
    (8192 ≤ c.toNat ∧ c.toNat ≤ 8202) ∨ c.toNat = 8232 ∨ c.toNat = 8233 ∨
    c.toNat = 8239 ∨ c.toNat = 8287 ∨ c.toNat = 12288 ∨ c.toNat = 65279)

/-- The `toLowerCase` conversion as the recognizer observes it: ASCII
letters map down, and the Kelvin sign -- the single character outside ASCII
whose Unicode lowercase is an ASCII letter -- maps to `k`.  Every other
character's Unicode lowercase is itself outside ASCII (or grows to several
characters containing a combining mark), so against the recognizer's
ASCII-only keywords, digits and blank tests it compares unequal exactly as
the character itself does, and it is kept unchanged. -/
def jsToLower (c : Char) : Char := if c = '\u212A' then 'k' else c.toLower

/-- `toLowerCase` applied to the characters of a string. -/
def toLowerList (l : List Char) : List Char := l.map jsToLower

/-- `trim`: strip leading and trailing whitespace. -/
def trimBoth (l : List Char) : List Char :=
  ((l.dropWhile isSpace).reverse.dropWhile isSpace).reverse

/-- Accumulator pass splitting a string into blank-separated tokens. -/
def tokensAux : List Char → List Char → List (List Char)
  | [], cur => if cur = [] then [] else [cur.reverse]
  | c :: rest, cur =>
    if isSpace c then
      if cur = [] then tokensAux rest [] else cur.reverse :: tokensAux rest []
    else tokensAux rest (c :: cur)

/-- The maximal runs of non-blank characters of a string, in order. -/
def tokens (l : List Char) : List (List Char) := tokensAux l []

/-- The test performed by the anchored four-two-two digit date pattern of the
source (`^\d{4}-\d{2}-\d{2}$`). -/
def matchesYMD : List Char → Bool
  | [c0, c1, c2, c3, c4, c5, c6, c7, c8, c9] =>
    c0.isDigit && c1.isDigit && c2.isDigit && c3.isDigit && c4 == '-' &&
    c5.isDigit && c6.isDigit && c7 == '-' && c8.isDigit && c9.isDigit
  | _ => false

theorem matchesYMD_shape : ∀ l : List Char, matchesYMD l = true →
    ∃ c0 c1 c2 c3 c5 c6 c8 c9, l = [c0, c1, c2, c3, '-', c5, c6, '-', c8, c9] ∧
      c0.isDigit = true := by
  intro l h
  rcases l with _ | ⟨c0, _ | ⟨c1, _ | ⟨c2, _ | ⟨c3, _ | ⟨c4, _ | ⟨c5, _ | ⟨c6, _ | ⟨c7,
    _ | ⟨c8, _ | ⟨c9, _ | ⟨c10, rest⟩⟩⟩⟩⟩⟩⟩⟩⟩⟩⟩
  case cons.cons.cons.cons.cons.cons.cons.cons.cons.cons.nil =>
    simp only [matchesYMD, Bool.and_eq_true, beq_iff_eq] at h
    obtain ⟨⟨⟨⟨⟨⟨⟨⟨⟨h0, h1⟩, h2⟩, h3⟩, h4⟩, h5⟩, h6⟩, h7⟩, h8⟩, h9⟩ := h
    subst h4
    subst h7
    exact ⟨c0, c1, c2, c3, c5, c6, c8, c9, rfl, h0⟩
  all_goals simp [matchesYMD] at h

theorem matchesYMD_false_of_head {c : Char} {l : List Char} (hc : c.isDigit = false) :
    matchesYMD (c :: l) = false := by
  cases hm : matchesYMD (c :: l)
  · rfl
  · obtain ⟨c0, c1, c2, c3, c5, c6, c8, c9, hL, h0⟩ := matchesYMD_shape _ hm
    have : c = c0 := (List.cons.injEq _ _ _ _ ▸ hL).1
    rw [this, h0] at hc
    exact Bool.noConfusion hc

theorem matchesYMD_false_of_no_dash {l : List Char} (h : ∀ c ∈ l, c ≠ '-') :
    matchesYMD l = false := by
  cases hm : matchesYMD l
  · rfl
  · obtain ⟨c0, c1, c2, c3, c5, c6, c8, c9, hL, h0⟩ := matchesYMD_shape _ hm
    exact absurd rfl (h '-' (by rw [hL]; simp))

/-! ## The relative-date resolution engine (`parseRelativeDate`) -/

/-- `addDays`: shifting a `Date` by whole days. -/
def addDays (z : ℤ) (n : ℤ) : ℤ := z + n

/-- `addMonths`: `setMonth` month arithmetic with the `Date` rollover
normalization (year borrow via flooring, day-of-month kept and allowed to
roll over into the next month). -/
def addMonths (z : ℤ) (n : ℤ) : ℤ :=
  let c := civilFromDays z
  let mi : ℤ := (c.2.1 : ℤ) - 1 + n
  daysFromCivil (c.1 + mi / 12) ((mi % 12).toNat + 1) c.2.2

/-- The weekday-name array of the source, `sunday` first. -/
def weekNames : List (List Char) :=
  ["sunday".data, "monday".data, "tuesday".data, "wednesday".data, "thursday".data,
   "friday".data, "saturday".data]

/-- `indexOf` of a token in the weekday-name array, when present. -/
def weekdayIdx (t : List Char) : Option ℕ :=
  if t = "sunday".data then some 0
  else if t = "monday".data then some 1
  else if t = "tuesday".data then some 2
  else if t = "wednesday".data then some 3
  else if t = "thursday".data then some 4
  else if t = "friday".data then some 5
  else if t = "saturday".data then some 6
  else none

/-- The unit word of the ago pattern, with its optional plural `s`. -/
def agoUnit (t : List Char) : Option ℕ :=
  if t = "day".data ∨ t = "days".data then some 0
  else if t = "week".data ∨ t = "weeks".data then some 1
  else if t = "month".data ∨ t = "months".data then some 2
  else none

/-- Matching of the anchored ago pattern (digits, blanks, unit word with
optional `s`, blanks, `ago`) against a trimmed string, returning the parsed
amount and the unit. -/
def agoMatch (l : List Char) : Option (ℕ × ℕ) :=
  match tokens l with
  | [t1, t2, t3] =>
    if t1 ≠ [] ∧ (∀ c ∈ t1, c.isDigit = true) ∧ t3 = "ago".data then
      match agoUnit t2 with
      | some u => some (parseNat t1, u)
      | none => none
    else none
  | _ => none

/-- Matching of the anchored last/this weekday pattern against a trimmed
string, returning whether the modifier is `last` and the weekday index. -/
def weekdayMatch (l : List Char) : Option (Bool × ℕ) :=
  match tokens l with
  | [t1, t2] =>
    if t1 = "last".data then (weekdayIdx t2).map (fun w => (true, w))
    else if t1 = "this".data then (weekdayIdx t2).map (fun w => (false, w))
    else none
  | _ => none

/-- The branch structure of the resolver on the normalized (lowercased and
trimmed) input, shared by every non-canonical form. -/
def resolveNormalized (today : ℤ) (input : String) (normalized : List Char) : String :=
  if normalized = "today".data ∨ normalized = "now".data then formatDate today
  else if normalized = "yesterday".data then formatDate (addDays today (-1))
  else if normalized = "tomorrow".data then formatDate (addDays today 1)
  else
    match agoMatch normalized with
    | some (amount, u) =>
      if u = 0 then formatDate (addDays today (-(amount : ℤ)))
      else if u = 1 then formatDate (addDays today (-(amount : ℤ) * 7))
      else formatDate (addMonths today (-(amount : ℤ)))
    | none =>
      match weekdayMatch normalized with
      | some (isLast, w) =>
        if isLast then
          formatDate (addDays today
            (-(if weekdayOf today - (w : ℤ) ≤ 0 then weekdayOf today - (w : ℤ) + 7
               else weekdayOf today - (w : ℤ))))
        else
          formatDate (addDays today
            (if (w : ℤ) - weekdayOf today < 0 then (w : ℤ) - weekdayOf today + 7
             else (w : ℤ) - weekdayOf today))
      | none => input

/-- The resolver `parseRelativeDate` of the source, anchored at the current
local day `today`.  Returns the canonical date string of the resolved day, or
the input unchanged when no recognized form matches. -/
def parseRelativeDate (today : ℤ) (input : String) : String :=
  if matchesYMD input.data then input
  else resolveNormalized today input (trimBoth (toLowerList input.data))

/-- The disjunction of the recognized input forms of the resolver: an already
canonical date, today/now, yesterday, tomorrow, an ago phrase, or a last/this
weekday phrase. -/
def recognizedDateForm (s : String) : Prop :=
  matchesYMD s.data = true ∨
  trimBoth (toLowerList s.data) = "today".data ∨
  trimBoth (toLowerList s.data) = "now".data ∨
  trimBoth (toLowerList s.data) = "yesterday".data ∨
  trimBoth (toLowerList s.data) = "tomorrow".data ∨
  (agoMatch (trimBoth (toLowerList s.data))).isSome = true ∨
  (weekdayMatch (trimBoth (toLowerList s.data))).isSome = true

instance (s : String) : Decidable (recognizedDateForm s) := by
  unfold recognizedDateForm
  infer_instance


/-! ## Evaluation lemmas for the string utilities -/

theorem digitChar_isDigit : ∀ d < 10, (digitChar d).isDigit = true := by decide

theorem digitChar_not_space : ∀ d < 10, isSpace (digitChar d) = false := by decide

theorem toLower_fix {c : Char} (h : c.toNat < 65 ∨ 90 < c.toNat) : c.toLower = c := by
  simp only [Char.toLower]
  split
  · omega
  · rfl

theorem toLower_space {c : Char} (h : isSpace c = true) : jsToLower c = c := by
  unfold isSpace at h
  rw [decide_eq_true_eq] at h
  have hk : c ≠ '\u212A' := by
    intro hc
    subst hc
    exact absurd h (by decide)
  unfold jsToLower
  rw [if_neg hk]
  exact toLower_fix (by omega)

theorem toLower_digitChar : ∀ d < 10, jsToLower (digitChar d) = digitChar d := by decide

theorem toLowerList_reprNat (n : ℕ) : toLowerList (reprNat n) = reprNat n := by
  unfold toLowerList
  have : ∀ l : List Char, (∀ c ∈ l, jsToLower c = c) → l.map jsToLower = l := by
    intro l hl
    induction l with
    | nil => rfl
    | cons c t ih =>
      rw [List.map_cons, hl c (List.mem_cons_self _ _),
        ih (fun x hx => hl x (List.mem_cons_of_mem _ hx))]
  apply this
  intro c hc
  obtain ⟨d, hd, hcd⟩ := reprNat_digits hc
  rw [hcd]
  exact toLower_digitChar d hd

theorem dropWhile_isSpace_eq_self {l : List Char}
    (h : ∀ c, l.head? = some c → isSpace c = false) : l.dropWhile isSpace = l := by
  cases l with
  | nil => rfl
  | cons c t =>
    rw [List.dropWhile_cons, if_neg]
    rw [h c rfl]
    simp

theorem trimBoth_eq_self {l : List Char}
    (hh : ∀ c, l.head? = some c → isSpace c = false)
    (hl : ∀ c, l.getLast? = some c → isSpace c = false) : trimBoth l = l := by
  unfold trimBoth
  rw [dropWhile_isSpace_eq_self hh]
  rw [dropWhile_isSpace_eq_self (by
    intro c hc
    rw [List.head?_reverse] at hc
    exact hl c hc)]
  exact List.reverse_reverse l

theorem tokensAux_nil (cur : List Char) :
    tokensAux [] cur = if cur = [] then [] else [cur.reverse] := rfl

theorem tokensAux_cons (c : Char) (rest cur : List Char) :
    tokensAux (c :: rest) cur =
      if isSpace c then
        if cur = [] then tokensAux rest [] else cur.reverse :: tokensAux rest []
      else tokensAux rest (c :: cur) := rfl

theorem tokensAux_nonspace : ∀ (ds l cur : List Char), (∀ c ∈ ds, isSpace c = false) →
    tokensAux (ds ++ l) cur = tokensAux l (ds.reverse ++ cur) := by
  intro ds
  induction ds with
  | nil => intro l cur _; rfl
  | cons c ds ih =>
    intro l cur h
    rw [List.cons_append, tokensAux_cons]
    rw [if_neg (by rw [h c (List.mem_cons_self _ _)]; simp)]
    rw [ih l (c :: cur) (fun x hx => h x (List.mem_cons_of_mem _ hx))]
    rw [List.reverse_cons, List.append_assoc]
    rfl

theorem tokensAux_space_flush {l cur : List Char} (hcur : cur ≠ []) :
    tokensAux (' ' :: l) cur = cur.reverse :: tokensAux l [] := by
  rw [tokensAux_cons, if_pos (by decide : isSpace ' ' = true), if_neg hcur]

theorem tokens_front {ds l : List Char} (h1 : ds ≠ []) (h2 : ∀ c ∈ ds, isSpace c = false) :
    tokens (ds ++ ' ' :: l) = ds :: tokens l := by
  unfold tokens
  rw [tokensAux_nonspace ds (' ' :: l) [] h2, List.append_nil]
  rw [tokensAux_space_flush (by simp [h1]), List.reverse_reverse]

theorem tokens_single {name : List Char} (h1 : name ≠ [])
    (h2 : ∀ c ∈ name, isSpace c = false) : tokens name = [name] := by
  unfold tokens
  have h3 := tokensAux_nonspace name [] [] h2
  rw [List.append_nil] at h3
  rw [h3, tokensAux_nil, if_neg (by simp [h1]), List.append_nil, List.reverse_reverse]

theorem space_mem_ne {l target : List Char} (hmem : ' ' ∈ l) (ht : ' ' ∉ target) :
    l ≠ target := by
  intro h
  rw [h] at hmem
  exact ht hmem


theorem mk_data (l : List Char) : (String.mk l).data = l := rfl

theorem toLowerList_append (a b : List Char) :
    toLowerList (a ++ b) = toLowerList a ++ toLowerList b := List.map_append _ _ _

theorem toLowerList_cons (c : Char) (l : List Char) :
    toLowerList (c :: l) = jsToLower c :: toLowerList l := rfl

/-- C8: a string already matching the canonical date pattern is returned
unchanged, with no calendar validation. -/
theorem claim_C8_canonical_passthrough (today : ℤ) (s : String)
    (h : matchesYMD s.data = true) : parseRelativeDate today s = s := by
  unfold parseRelativeDate
  rw [if_pos h]

/-- Witness for C8 at the out-of-calendar input `2024-13-40`. -/
theorem claim_C8_witness :
    matchesYMD "2024-13-40".data = true ∧
      parseRelativeDate 0 "2024-13-40" = "2024-13-40" :=
  ⟨by decide, claim_C8_canonical_passthrough 0 "2024-13-40" (by decide)⟩

/-- C9: the resolver is a total function of the current day and the input
string, and any input matching none of the recognized forms is returned
unchanged, verbatim. -/
theorem claim_C9_unrecognized_passthrough (today : ℤ) (s : String)
    (h : ¬ recognizedDateForm s) : parseRelativeDate today s = s := by
  unfold recognizedDateForm at h
  push_neg at h
  obtain ⟨h1, h2, h3, h4, h5, h6, h7⟩ := h
  unfold parseRelativeDate
  rw [if_neg h1]
  unfold resolveNormalized
  rw [if_neg (by rw [not_or]; exact ⟨h2, h3⟩), if_neg h4, if_neg h5]
  have hago : agoMatch (trimBoth (toLowerList s.data)) = none := by
    cases hc : agoMatch (trimBoth (toLowerList s.data)) with
    | none => rfl
    | some v => rw [hc] at h6; simp at h6
  have hweek : weekdayMatch (trimBoth (toLowerList s.data)) = none := by
    cases hc : weekdayMatch (trimBoth (toLowerList s.data)) with
    | none => rfl
    | some v => rw [hc] at h7; simp at h7
  rw [hago, hweek]

/-- Witness for C9 at the unrecognized input `banana`. -/
theorem claim_C9_witness :
    ¬ recognizedDateForm "banana" ∧ parseRelativeDate 0 "banana" = "banana" :=
  ⟨by decide, claim_C9_unrecognized_passthrough 0 "banana" (by decide)⟩

/-- The ECMAScript clipping of the `Date` range the source runs under: a
time value is limited to 8.64e15 milliseconds either side of the epoch,
exactly 100000000 days, and a result outside that range is an invalid
`Date` whose numeric components read as not-a-number, so the source's
`formatDate` renders the string `NaN-NaN-NaN` for it.  Within the range
this agrees with `formatDate`. -/
def formatDateJS (z : ℤ) : String :=
  if -100000000 ≤ z ∧ z ≤ 100000000 then formatDate z else "NaN-NaN-NaN"

/-- The branch structure of the resolver on the normalized input with the
`Date`-range clipping of `formatDateJS` applied to every resolved day. -/
def resolveNormalizedJS (today : ℤ) (input : String) (normalized : List Char) : String :=
  if normalized = "today".data ∨ normalized = "now".data then formatDateJS today
  else if normalized = "yesterday".data then formatDateJS (addDays today (-1))
  else if normalized = "tomorrow".data then formatDateJS (addDays today 1)
  else
    match agoMatch normalized with
    | some (amount, u) =>
      if u = 0 then formatDateJS (addDays today (-(amount : ℤ)))
      else if u = 1 then formatDateJS (addDays today (-(amount : ℤ) * 7))
      else formatDateJS (addMonths today (-(amount : ℤ)))
    | none =>
      match weekdayMatch normalized with
      | some (isLast, w) =>
        if isLast then
          formatDateJS (addDays today
            (-(if weekdayOf today - (w : ℤ) ≤ 0 then weekdayOf today - (w : ℤ) + 7
               else weekdayOf today - (w : ℤ))))
        else
          formatDateJS (addDays today
            (if (w : ℤ) - weekdayOf today < 0 then (w : ℤ) - weekdayOf today + 7
             else (w : ℤ) - weekdayOf today))
      | none => input

/-- The resolver with the `Date`-range clipping made explicit: it differs
from `parseRelativeDate` only when a resolved day leaves the representable
range, where the calendar idealization of `parseRelativeDate` is wider than
the program. -/
def parseRelativeDateJS (today : ℤ) (input : String) : String :=
  if matchesYMD input.data then input
  else resolveNormalizedJS today input (trimBoth (toLowerList input.data))

/-- Evaluation of the resolver on an ago phrase `<digits> <unit> ago`. -/
theorem resolve_ago_js (today : ℤ) (N : ℕ) (t2 : List Char) (u : ℕ)
    (ht2ne : t2 ≠ [])
    (ht2nosp : ∀ c ∈ t2, isSpace c = false)
    (ht2lower : toLowerList t2 = t2)
    (ht2nodash : '-' ∉ t2)
    (hunit : agoUnit t2 = some u) :
    parseRelativeDateJS today ⟨reprNat N ++ ' ' :: (t2 ++ ' ' :: "ago".data)⟩ =
      (if u = 0 then formatDateJS (addDays today (-(N : ℤ)))
       else if u = 1 then formatDateJS (addDays today (-(N : ℤ) * 7))
       else formatDateJS (addMonths today (-(N : ℤ)))) := by
  have hdigits : ∀ c ∈ reprNat N, isSpace c = false := by
    intro c hc
    obtain ⟨d, hd, hcd⟩ := reprNat_digits hc
    rw [hcd]
    exact digitChar_not_space d hd
  have hnodash : ∀ c ∈ reprNat N ++ ' ' :: (t2 ++ ' ' :: "ago".data), c ≠ '-' := by
    intro c hc
    rw [List.mem_append] at hc
    rcases hc with hc | hc
    · obtain ⟨d, hd, hcd⟩ := reprNat_digits hc
      rw [hcd]
      exact digitChar_ne_dash d hd
    · rcases List.mem_cons.mp hc with hc | hc
      · rw [hc]; decide
      · rcases List.mem_append.mp hc with hc | hc
        · intro hdash; rw [hdash] at hc; exact ht2nodash hc
        · rcases List.mem_cons.mp hc with hc | hc
          · rw [hc]; decide
          · intro hdash; rw [hdash] at hc; revert hc; decide
  have hymd : matchesYMD (reprNat N ++ ' ' :: (t2 ++ ' ' :: "ago".data)) = false :=
    matchesYMD_false_of_no_dash hnodash
  have hlower : toLowerList (reprNat N ++ ' ' :: (t2 ++ ' ' :: "ago".data)) =
      reprNat N ++ ' ' :: (t2 ++ ' ' :: "ago".data) := by
    rw [toLowerList_append, toLowerList_reprNat, toLowerList_cons, toLowerList_append,
      ht2lower, toLowerList_cons]
    rw [show jsToLower ' ' = ' ' from by decide,
      show toLowerList "ago".data = "ago".data from by decide]
  have htrim : trimBoth (reprNat N ++ ' ' :: (t2 ++ ' ' :: "ago".data)) =
      reprNat N ++ ' ' :: (t2 ++ ' ' :: "ago".data) := by
    apply trimBoth_eq_self
    · intro c hc
      rcases hrn : reprNat N with _ | ⟨c0, t0⟩
      · exact absurd hrn (reprNat_ne_nil N)
      · rw [hrn, List.cons_append, List.head?_cons] at hc
        obtain ⟨d, hd, hcd⟩ := reprNat_digits (n := N) (c := c0)
          (by rw [hrn]; exact List.mem_cons_self _ _)
        rw [(Option.some.inj hc).symm, hcd]
        exact digitChar_not_space d hd
    · intro c hc
      rw [List.getLast?_append] at hc
      rw [show (' ' :: (t2 ++ ' ' :: "ago".data)) = (' ' :: t2) ++ (' ' :: "ago".data)
        from by rw [List.cons_append]] at hc
      rw [List.getLast?_append] at hc
      rw [show (' ' :: "ago".data).getLast? = some 'o' from by decide] at hc
      have hoc : some 'o' = some c := hc
      rw [(Option.some.inj hoc).symm]
      decide
  have htok : tokens (reprNat N ++ ' ' :: (t2 ++ ' ' :: "ago".data)) =
      [reprNat N, t2, "ago".data] := by
    rw [tokens_front (reprNat_ne_nil N) hdigits]
    rw [tokens_front ht2ne ht2nosp]
    rw [show tokens "ago".data = ["ago".data] from by decide]
  have hago : agoMatch (reprNat N ++ ' ' :: (t2 ++ ' ' :: "ago".data)) = some (N, u) := by
    unfold agoMatch
    rw [htok]
    show (if reprNat N ≠ [] ∧ (∀ c ∈ reprNat N, c.isDigit = true) ∧ "ago".data = "ago".data
      then match agoUnit t2 with
        | some u => some (parseNat (reprNat N), u)
        | none => none
      else none) = some (N, u)
    rw [if_pos ⟨reprNat_ne_nil N, fun c hc => (by
        obtain ⟨d, hd, hcd⟩ := reprNat_digits hc
        rw [hcd]
        exact digitChar_isDigit d hd), rfl⟩]
    rw [hunit, parseNat_reprNat]
  have hsp : (' ' : Char) ∈ reprNat N ++ ' ' :: (t2 ++ ' ' :: "ago".data) :=
    List.mem_append_right _ (List.mem_cons_self _ _)
  unfold parseRelativeDateJS
  rw [show (String.mk (reprNat N ++ ' ' :: (t2 ++ ' ' :: "ago".data))).data =
    reprNat N ++ ' ' :: (t2 ++ ' ' :: "ago".data) from rfl] at *
  rw [if_neg (by rw [mk_data, hymd]; simp)]
  rw [mk_data, hlower, htrim]
  unfold resolveNormalizedJS
  rw [if_neg (by
      rw [not_or]
      exact ⟨space_mem_ne hsp (by decide), space_mem_ne hsp (by decide)⟩),
    if_neg (space_mem_ne hsp (by decide)), if_neg (space_mem_ne hsp (by decide))]
  rw [hago]

/-- Counterexample to C7 as stated: at `N = 200000000` the resolved day
leaves the `Date` range, so the resolver renders the invalid-date string
`NaN-NaN-NaN`, which is not the canonical form of today minus `N` days. -/
theorem claim_C7_counterexample :
    parseRelativeDateJS 0 "200000000 days ago" = "NaN-NaN-NaN" ∧
    formatDate ((0 : ℤ) - 200000000) ≠ "NaN-NaN-NaN" ∧
    parseRelativeDateJS 0 "200000000 days ago" ≠ formatDate ((0 : ℤ) - 200000000) := by
  refine ⟨by decide, by decide, by decide⟩

/-- C7 corrected: whenever the resolved day stays inside the `Date` range,
`N days ago` resolves to the canonical form of today minus `N` days and
`N weeks ago` to today minus `7 × N` days; a resolved day outside the range
yields the invalid-date string instead of a canonical date. -/
theorem claim_C7_ago_bounded (today : ℤ) (N : ℕ) :
    (-100000000 ≤ today - (N : ℤ) → today - (N : ℤ) ≤ 100000000 →
      parseRelativeDateJS today ⟨reprNat N ++ " days ago".data⟩ =
        formatDate (today - (N : ℤ))) ∧
    (-100000000 ≤ today - 7 * (N : ℤ) → today - 7 * (N : ℤ) ≤ 100000000 →
      parseRelativeDateJS today ⟨reprNat N ++ " weeks ago".data⟩ =
        formatDate (today - 7 * (N : ℤ))) ∧
    (today - (N : ℤ) < -100000000 ∨ 100000000 < today - (N : ℤ) →
      parseRelativeDateJS today ⟨reprNat N ++ " days ago".data⟩ = "NaN-NaN-NaN") := by
  have hdays := resolve_ago_js today N "days".data 0 (by decide) (by decide) (by decide)
    (by decide) (by decide)
  rw [if_pos rfl] at hdays
  have hweeks := resolve_ago_js today N "weeks".data 1 (by decide) (by decide) (by decide)
    (by decide) (by decide)
  rw [if_neg (by decide), if_pos rfl] at hweeks
  have hconvd : ((" days ago".data : List Char)) = ' ' :: ("days".data ++ ' ' :: "ago".data) :=
    by decide
  have hconvw : ((" weeks ago".data : List Char)) =
      ' ' :: ("weeks".data ++ ' ' :: "ago".data) := by decide
  refine ⟨fun h1 h2 => ?_, fun h1 h2 => ?_, fun h => ?_⟩
  · rw [hconvd, hdays]
    unfold formatDateJS addDays
    rw [if_pos (by constructor <;> omega)]
    ring_nf
  · rw [hconvw, hweeks]
    unfold formatDateJS addDays
    rw [if_pos (by constructor <;> omega)]
    ring_nf
  · rw [hconvd, hdays]
    unfold formatDateJS addDays
    rw [if_neg (by omega)]

/-- Witness for C7 corrected: on 2026-02-04, `3 days ago` and `2 weeks ago`
resolve inside the range; a 200000000-day offset leaves it. -/
theorem claim_C7_witness :
    parseRelativeDateJS 20488 "3 days ago" = "2026-02-01" ∧
    parseRelativeDateJS 20488 "2 weeks ago" = "2026-01-21" ∧
    parseRelativeDateJS 20488 "200000000 days ago" = "NaN-NaN-NaN" := by
  refine ⟨?_, ?_, ?_⟩
  · exact ((claim_C7_ago_bounded 20488 3).1 (by decide) (by decide)).trans (by decide)
  · exact ((claim_C7_ago_bounded 20488 2).2.1 (by decide) (by decide)).trans (by decide)
  · exact (claim_C7_ago_bounded 20488 200000000).2.2 (by decide)


/-! ## Weekday resolution (C5, C6) -/

/-- The most recent day strictly before `today` whose weekday index is `w`
(a full 7 days back when today itself has index `w`). -/
def lastWeekdayBefore (today w : ℤ) : ℤ := today - ((weekdayOf today - w - 1) % 7 + 1)

/-- The next day on or after `today` whose weekday index is `w` (today
itself when today has index `w`). -/
def nextWeekdayOnAfter (today w : ℤ) : ℤ := today + (w - weekdayOf today) % 7

theorem lastArith (today : ℤ) (w : ℕ) (hw : w < 7) :
    addDays today
        (-(if weekdayOf today - (w : ℤ) ≤ 0 then weekdayOf today - (w : ℤ) + 7
           else weekdayOf today - (w : ℤ))) = lastWeekdayBefore today w := by
  unfold addDays lastWeekdayBefore weekdayOf
  split_ifs <;> omega

theorem thisArith (today : ℤ) (w : ℕ) (hw : w < 7) :
    addDays today
        (if (w : ℤ) - weekdayOf today < 0 then (w : ℤ) - weekdayOf today + 7
         else (w : ℤ) - weekdayOf today) = nextWeekdayOnAfter today w := by
  unfold addDays nextWeekdayOnAfter weekdayOf
  split_ifs <;> omega

theorem lastWeekdayBefore_spec (today : ℤ) (w : ℕ) (hw : w < 7) :
    lastWeekdayBefore today w < today ∧
    weekdayOf (lastWeekdayBefore today w) = (w : ℤ) ∧
    (∀ e : ℤ, e < today → weekdayOf e = (w : ℤ) → e ≤ lastWeekdayBefore today w) ∧
    (weekdayOf today = (w : ℤ) → lastWeekdayBefore today w = today - 7) ∧
    lastWeekdayBefore today w ≠ today := by
  unfold lastWeekdayBefore weekdayOf
  refine ⟨by omega, by omega, fun e he hwe => ?_, fun h => by omega, by omega⟩
  unfold weekdayOf at hwe
  omega

theorem nextWeekdayOnAfter_spec (today : ℤ) (w : ℕ) (hw : w < 7) :
    today ≤ nextWeekdayOnAfter today w ∧
    weekdayOf (nextWeekdayOnAfter today w) = (w : ℤ) ∧
    (∀ e : ℤ, today ≤ e → weekdayOf e = (w : ℤ) → nextWeekdayOnAfter today w ≤ e) ∧
    (weekdayOf today = (w : ℤ) → nextWeekdayOnAfter today w = today) := by
  unfold nextWeekdayOnAfter weekdayOf
  refine ⟨by omega, by omega, fun e he hwe => ?_, fun h => by omega⟩
  unfold weekdayOf at hwe
  omega

/-- Evaluation of the resolver on a `last`/`this` weekday phrase whose weekday
word lowercases to `name`. -/
theorem resolve_weekday (today : ℤ) (W : String) (mod : List Char) (isLast : Bool)
    (name : List Char) (w : ℕ)
    (hmod : (mod = "last".data ∧ isLast = true) ∨ (mod = "this".data ∧ isLast = false))
    (hWlower : toLowerList W.data = name)
    (hnamene : name ≠ [])
    (hnosp : ∀ c ∈ name, isSpace c = false)
    (hnodash : '-' ∉ name)
    (hidx : weekdayIdx name = some w) :
    parseRelativeDate today ⟨mod ++ ' ' :: W.data⟩ =
      (if isLast then
        formatDate (addDays today
          (-(if weekdayOf today - (w : ℤ) ≤ 0 then weekdayOf today - (w : ℤ) + 7
             else weekdayOf today - (w : ℤ))))
      else
        formatDate (addDays today
          (if (w : ℤ) - weekdayOf today < 0 then (w : ℤ) - weekdayOf today + 7
           else (w : ℤ) - weekdayOf today))) := by
  have hWne : W.data ≠ [] := by
    intro h
    rw [h] at hWlower
    exact hnamene hWlower.symm
  have hWnosp : ∀ c ∈ W.data, isSpace c = false := by
    intro c hc
    cases hsp : isSpace c with
    | false => rfl
    | true =>
      have hlow : jsToLower c = c := toLower_space hsp
      have hmem : c ∈ name := by
        rw [← hWlower]
        unfold toLowerList
        rw [← hlow]
        exact List.mem_map_of_mem _ hc
      rw [hnosp c hmem] at hsp
      exact absurd hsp (by simp)
  have hWnodash : ∀ c ∈ W.data, c ≠ '-' := by
    intro c hc hdash
    subst hdash
    have hmem : ('-' : Char) ∈ name := by
      rw [← hWlower]
      unfold toLowerList
      rw [show ('-' : Char) = jsToLower '-' from by decide]
      exact List.mem_map_of_mem _ hc
    exact hnodash hmem
  have hmodne : mod ≠ [] := by
    rcases hmod with ⟨hm, _⟩ | ⟨hm, _⟩ <;> rw [hm] <;> decide
  have hmodnosp : ∀ c ∈ mod, isSpace c = false := by
    rcases hmod with ⟨hm, _⟩ | ⟨hm, _⟩ <;> rw [hm] <;> decide
  have hmodnodash : ∀ c ∈ mod, c ≠ '-' := by
    rcases hmod with ⟨hm, _⟩ | ⟨hm, _⟩ <;> rw [hm] <;> decide
  have hmodlower : toLowerList mod = mod := by
    rcases hmod with ⟨hm, _⟩ | ⟨hm, _⟩ <;> rw [hm] <;> decide
  have hnodashL : ∀ c ∈ mod ++ ' ' :: W.data, c ≠ '-' := by
    intro c hc
    rcases List.mem_append.mp hc with hc | hc
    · exact hmodnodash c hc
    · rcases List.mem_cons.mp hc with hc | hc
      · rw [hc]; decide
      · exact hWnodash c hc
  have hymd : matchesYMD (mod ++ ' ' :: W.data) = false :=
    matchesYMD_false_of_no_dash hnodashL
  have hlower : toLowerList (mod ++ ' ' :: W.data) = mod ++ ' ' :: name := by
    rw [toLowerList_append, hmodlower, toLowerList_cons, hWlower]
    rw [show jsToLower ' ' = ' ' from by decide]
  have htrim : trimBoth (mod ++ ' ' :: name) = mod ++ ' ' :: name := by
    apply trimBoth_eq_self
    · intro c hc
      rcases hm2 : mod with _ | ⟨c0, t0⟩
      · exact absurd hm2 hmodne
      · rw [hm2, List.cons_append, List.head?_cons] at hc
        exact (Option.some.inj hc) ▸ hmodnosp c0 (by rw [hm2]; exact List.mem_cons_self _ _)
    · intro c hc
      rw [List.getLast?_append_cons] at hc
      rw [show (' ' :: name) = [' '] ++ name from rfl,
        List.getLast?_append_of_ne_nil _ hnamene] at hc
      obtain ⟨hne2, hcl⟩ := List.mem_getLast?_eq_getLast (Option.mem_def.mpr hc)
      rw [hcl]
      exact hnosp _ (List.getLast_mem hne2)
  have htok : tokens (mod ++ ' ' :: name) = [mod, name] :=
    by rw [tokens_front hmodne hmodnosp, tokens_single hnamene hnosp]
  have hago : agoMatch (mod ++ ' ' :: name) = none := by
    unfold agoMatch
    rw [htok]
  have hweek : weekdayMatch (mod ++ ' ' :: name) = some (isLast, w) := by
    unfold weekdayMatch
    rw [htok]
    rcases hmod with ⟨hm, hb⟩ | ⟨hm, hb⟩ <;> subst hm <;> subst hb
    · show (if ("last".data : List Char) = "last".data then
        (weekdayIdx name).map (fun w => (true, w))
        else if ("last".data : List Char) = "this".data then
          (weekdayIdx name).map (fun w => (false, w))
        else none) = some (true, w)
      rw [if_pos rfl, hidx]
      rfl
    · show (if ("this".data : List Char) = "last".data then
        (weekdayIdx name).map (fun w => (true, w))
        else if ("this".data : List Char) = "this".data then
          (weekdayIdx name).map (fun w => (false, w))
        else none) = some (false, w)
      rw [if_neg (by decide), if_pos rfl, hidx]
      rfl
  have hsp : (' ' : Char) ∈ mod ++ ' ' :: name :=
    List.mem_append_right _ (List.mem_cons_self _ _)
  unfold parseRelativeDate
  rw [if_neg (by rw [mk_data, hymd]; simp)]
  rw [mk_data, hlower, htrim]
  unfold resolveNormalized
  rw [if_neg (by
      rw [not_or]
      exact ⟨space_mem_ne hsp (by decide), space_mem_ne hsp (by decide)⟩),
    if_neg (space_mem_ne hsp (by decide)), if_neg (space_mem_ne hsp (by decide))]
  rw [hago, hweek]

/-- The lowercase weekday names have no blanks or dashes, and each is found
at its own index by the weekday lookup. -/
theorem weekNames_facts : ∀ v < 7, weekNames.getD v [] ≠ [] ∧
    (∀ c ∈ weekNames.getD v [], isSpace c = false) ∧
    ('-' : Char) ∉ weekNames.getD v [] ∧
    weekdayIdx (weekNames.getD v []) = some v := by decide

/-- C5: for every weekday name (case-insensitive) and every current local
day, `last <weekday>` resolves to the canonical date of the most recent
occurrence of that weekday strictly before today; when today itself falls on
that weekday the resolved day is exactly 7 days earlier; the resolved string
is never today's canonical date. -/
theorem claim_C5_last_weekday (today : ℤ) (W : String) (w : ℕ) (hw : w < 7)
    (hW : toLowerList W.data = weekNames.getD w []) :
    parseRelativeDate today ⟨"last ".data ++ W.data⟩ =
      formatDate (lastWeekdayBefore today w) ∧
    lastWeekdayBefore today w < today ∧
    weekdayOf (lastWeekdayBefore today w) = (w : ℤ) ∧
    (∀ e : ℤ, e < today → weekdayOf e = (w : ℤ) → e ≤ lastWeekdayBefore today w) ∧
    (weekdayOf today = (w : ℤ) → lastWeekdayBefore today w = today - 7) ∧
    parseRelativeDate today ⟨"last ".data ++ W.data⟩ ≠ formatDate today := by
  obtain ⟨hne, hnosp, hnodash, hidx⟩ := weekNames_facts w hw
  have hmain := resolve_weekday today W "last".data true (weekNames.getD w []) w
    (Or.inl ⟨rfl, rfl⟩) hW hne hnosp hnodash hidx
  rw [if_pos rfl, lastArith today w hw] at hmain
  have hconv : (⟨"last ".data ++ W.data⟩ : String) = ⟨"last".data ++ ' ' :: W.data⟩ := rfl
  rw [hconv]
  obtain ⟨hlt, hwd, hmax, hsame, hnetoday⟩ := lastWeekdayBefore_spec today w hw
  refine ⟨hmain, hlt, hwd, hmax, hsame, ?_⟩
  rw [hmain]
  intro hcon
  exact hnetoday (formatDate_injective hcon)

/-- Witness for C5: on Wednesday 2026-02-04, `last Monday` resolves to
2026-02-02 (and `last wednesday` steps a full week back to 2026-01-28). -/
theorem claim_C5_witness :
    parseRelativeDate 20488 "last Monday" = "2026-02-02" ∧
    parseRelativeDate 20488 "last wednesday" = "2026-01-28" := by
  constructor
  · exact (claim_C5_last_weekday 20488 "Monday" 1 (by decide) (by decide)).1.trans (by decide)
  · exact (claim_C5_last_weekday 20488 "wednesday" 3 (by decide) (by decide)).1.trans (by decide)

/-- C6: for every weekday name (case-insensitive) and every current local
day, `this <weekday>` resolves to the canonical date of the next occurrence
of that weekday on or after today; when today itself falls on that weekday it
resolves to today's canonical date. -/
theorem claim_C6_this_weekday (today : ℤ) (W : String) (w : ℕ) (hw : w < 7)
    (hW : toLowerList W.data = weekNames.getD w []) :
    parseRelativeDate today ⟨"this ".data ++ W.data⟩ =
      formatDate (nextWeekdayOnAfter today w) ∧
    today ≤ nextWeekdayOnAfter today w ∧
    weekdayOf (nextWeekdayOnAfter today w) = (w : ℤ) ∧
    (∀ e : ℤ, today ≤ e → weekdayOf e = (w : ℤ) → nextWeekdayOnAfter today w ≤ e) ∧
    (weekdayOf today = (w : ℤ) →
      parseRelativeDate today ⟨"this ".data ++ W.data⟩ = formatDate today) := by
  obtain ⟨hne, hnosp, hnodash, hidx⟩ := weekNames_facts w hw
  have hmain := resolve_weekday today W "this".data false (weekNames.getD w []) w
    (Or.inr ⟨rfl, rfl⟩) hW hne hnosp hnodash hidx
  rw [if_neg (by simp), thisArith today w hw] at hmain
  have hconv : (⟨"this ".data ++ W.data⟩ : String) = ⟨"this".data ++ ' ' :: W.data⟩ := rfl
  rw [hconv]
  obtain ⟨hle, hwd, hmin, hsame⟩ := nextWeekdayOnAfter_spec today w hw
  refine ⟨hmain, hle, hwd, hmin, fun h => ?_⟩
  rw [hmain, hsame h]

/-- Witness for C6: on Wednesday 2026-02-04, `this friday` resolves to
2026-02-06 and `This Wednesday` resolves to today, 2026-02-04. -/
theorem claim_C6_witness :
    parseRelativeDate 20488 "this friday" = "2026-02-06" ∧
    parseRelativeDate 20488 "This Wednesday" = "2026-02-04" := by
  constructor
  · exact (claim_C6_this_weekday 20488 "friday" 5 (by decide) (by decide)).1.trans (by decide)
  · exact ((claim_C6_this_weekday 20488 "Wednesday" 3 (by decide)
      (by decide)).2.2.2.2 (by decide)).trans (by decide)


/-! ## The tool dispatcher: credentials, tool table, invocation envelope -/

/-- The argument map of one tool invocation; absent keys are `none`.  The
source names `from` and `to` are rendered `fromArg` and `toArg`. -/
structure ToolArgs where
  access_token : Option String
  account_id : Option String
  project_id : Option ℤ
  task_id : Option ℤ
  hours : Option ℚ
  spent_date : Option String
  notes : Option String
  fromArg : Option String
  toArg : Option String
  user_id : Option ℤ
  time_entry_id : Option ℤ
deriving DecidableEq

/-- The ambient environment credential pair, read once at startup. -/
structure EnvCreds where
  accessToken : Option String
  accountId : Option String
deriving DecidableEq

/-- JS truthiness of an optional string: present and non-empty. -/
def strTruthy : Option String → Bool
  | some s => !s.isEmpty
  | none => false

/-- JS truthiness of an optional number: present and non-zero. -/
def numTruthy : Option ℤ → Bool
  | some n => decide (n ≠ 0)
  | none => false

/-- The JS `a || b` fallback on optional strings, collapsed to the resulting
string (empty when both are falsy, exactly when the subsequent truthiness
check fails). -/
def jsOrStr (a b : Option String) : String :=
  match a with
  | some s => if s.isEmpty then b.getD "" else s
  | none => b.getD ""

/-- The error message of the missing-credential failure. -/
def missingCredsMsg : String :=
  "Missing required credentials: access_token and account_id must be provided either as arguments or via HARVEST_ACCESS_TOKEN and HARVEST_ACCOUNT_ID environment variables."

/-- `getCredentials`: per-call argument values fall back to the environment
field by field; the combined pair must leave neither field empty. -/
def getCredentials (args : ToolArgs) (env : EnvCreds) : Except String (String × String) :=
  let accessToken := jsOrStr args.access_token env.accessToken
  let accountId := jsOrStr args.account_id env.accountId
  if accessToken.isEmpty ∨ accountId.isEmpty then Except.error missingCredsMsg
  else Except.ok (accessToken, accountId)

/-- Whether an optional credential pair supplies both fields as non-empty
strings. -/
def suppliesBoth (tok acc : Option String) : Bool := strTruthy tok && strTruthy acc

/-- The body of a create-time-entry call. -/
structure TimeEntryPayload where
  project_id : Option ℤ
  task_id : Option ℤ
  spent_date : String
  hours : Option ℚ
  notes : Option String
deriving DecidableEq

/-- One outbound call to the external API collaborator. -/
structure ApiCall where
  method : String
  path : String
  query : List (String × String)
  body : Option TimeEntryPayload
deriving DecidableEq

/-- The external API collaborator: one call in, a success payload or an error
message out. -/
def Api : Type := ApiCall → Except String String

/-- The uniform response envelope returned to the host. -/
structure ToolResponse where
  isError : Bool
  content : String
deriving DecidableEq

/-- The outcome of one invocation: a handler response envelope, or the
rejection of a tool name outside the fixed set. -/
inductive InvokeResult where
  | response (r : ToolResponse)
  | toolNotFound (name : String)
deriving DecidableEq

/-- The fixed set of registered tool names. -/
def toolNames : List String :=
  ["get_my_profile", "list_active_projects", "log_time", "get_time_entries",
   "delete_time_entry", "start_timer", "stop_timer", "restart_timer",
   "get_running_timer"]

/-- The declared required arguments of each tool, as the input schemas
enforce at the boundary. -/
def validArgs (name : String) (args : ToolArgs) : Bool :=
  if name = "log_time" then
    args.project_id.isSome && args.task_id.isSome && args.hours.isSome
  else if name = "start_timer" then args.project_id.isSome && args.task_id.isSome
  else if name = "delete_time_entry" ∨ name = "stop_timer" ∨ name = "restart_timer" then
    args.time_entry_id.isSome
  else true

/-- The `spent_date` defaulting of the create-entry handlers: resolve the
supplied value, else canonical today. -/
def spentDateOf (today : ℤ) (args : ToolArgs) : String :=
  if strTruthy args.spent_date then parseRelativeDate today (args.spent_date.getD "")
  else formatDate today

/-- The `from`/`to` defaulting of the `get_time_entries` handler: `from`
resolves or defaults to today, `to` resolves or defaults to the already
resolved `from`. -/
def timeEntriesRange (today : ℤ) (args : ToolArgs) : String × String :=
  let fromDate := if strTruthy args.fromArg then parseRelativeDate today (args.fromArg.getD "")
    else formatDate today
  let toDate := if strTruthy args.toArg then parseRelativeDate today (args.toArg.getD "")
    else fromDate
  (fromDate, toDate)

/-- The query parameters of the `get_time_entries` call: the range always,
the `project_id` and `user_id` filters only when their argument is truthy. -/
def buildTimeEntriesQuery (fromDate toDate : String) (pid uid : Option ℤ) :
    List (String × String) :=
  [("from", fromDate), ("to", toDate)] ++
  (if numTruthy pid then [("project_id", String.mk (reprInt (pid.getD 0)))] else []) ++
  (if numTruthy uid then [("user_id", String.mk (reprInt (uid.getD 0)))] else [])

/-- Modelled from the spec: the timer tool registrations (`start_timer`,
`stop_timer`, `restart_timer`, `get_running_timer`) are part of the
repository but missing from the provided sources.  Per the spec's tool table,
`start_timer` creates a running (unfinished) time entry: a create call whose
body carries no finalized hours. -/
def startTimerCall (today : ℤ) (args : ToolArgs) : ApiCall :=
  ⟨"POST", "/time_entries", [],
    some ⟨args.project_id, args.task_id, spentDateOf today args, none, args.notes⟩⟩

/-- Modelled from the spec: `stop_timer` finalizes a running entry's elapsed
hours via a PATCH on the entry's stop endpoint. -/
def stopTimerCall (args : ToolArgs) : ApiCall :=
  ⟨"PATCH", "/time_entries/" ++ String.mk (reprInt (args.time_entry_id.getD 0)) ++ "/stop",
    [], none⟩

/-- Modelled from the spec: `restart_timer` resumes tracking on a previously
stopped entry via a PATCH on the entry's restart endpoint. -/
def restartTimerCall (args : ToolArgs) : ApiCall :=
  ⟨"PATCH", "/time_entries/" ++ String.mk (reprInt (args.time_entry_id.getD 0)) ++ "/restart",
    [], none⟩

/-- Modelled from the spec: `get_running_timer` queries whether any entry is
currently running, without transitioning remote state. -/
def getRunningTimerCall : ApiCall :=
  ⟨"GET", "/time_entries", [("is_running", "true")], none⟩

/-- The single external call of each registered tool and the success-text
builder applied to the collaborator's payload. -/
def toolCall (name : String) (today : ℤ) (args : ToolArgs) :
    ApiCall × (String → String) :=
  if name = "get_my_profile" then
    (⟨"GET", "/users/me", [], none⟩, fun s => "Authenticated as: " ++ s)
  else if name = "list_active_projects" then
    (⟨"GET", "/users/me/project_assignments", [], none⟩, fun s => s)
  else if name = "log_time" then
    (⟨"POST", "/time_entries", [],
      some ⟨args.project_id, args.task_id, spentDateOf today args, args.hours, args.notes⟩⟩,
     fun s => "Success! Time entry created with ID: " ++ s)
  else if name = "get_time_entries" then
    (⟨"GET", "/time_entries",
      buildTimeEntriesQuery (timeEntriesRange today args).1 (timeEntriesRange today args).2
        args.project_id args.user_id, none⟩, fun s => s)
  else if name = "delete_time_entry" then
    (⟨"DELETE", "/time_entries/" ++ String.mk (reprInt (args.time_entry_id.getD 0)), [], none⟩,
     fun _ => "Success! Time entry " ++ String.mk (reprInt (args.time_entry_id.getD 0)) ++
       " has been deleted.")
  else if name = "start_timer" then (startTimerCall today args, fun s => s)
  else if name = "stop_timer" then (stopTimerCall args, fun s => s)
  else if name = "restart_timer" then (restartTimerCall args, fun s => s)
  else if name = "get_running_timer" then (getRunningTimerCall, fun s => s)
  else (⟨"", "", [], none⟩, fun s => s)

/-- Map the collaborator's outcome to the response envelope: a tool-specific
success text, or an error envelope carrying the remote failure message. -/
def apiResult (r : Except String String) (okText : String → String) : InvokeResult :=
  match r with
  | Except.ok s => InvokeResult.response ⟨false, okText s⟩
  | Except.error e => InvokeResult.response ⟨true, "Harvest API Error: " ++ e⟩

/-- One tool invocation: reject unknown names, validate declared arguments,
resolve credentials (failing before any network call), then issue exactly one
external call and map its outcome.  The second component lists the external
calls issued. -/
def invoke (api : Api) (env : EnvCreds) (today : ℤ) (name : String) (args : ToolArgs) :
    InvokeResult × List ApiCall :=
  if name ∈ toolNames then
    if validArgs name args then
      match getCredentials args env with
      | Except.error msg => (InvokeResult.response ⟨true, msg⟩, [])
      | Except.ok _ =>
        let c := toolCall name today args
        (apiResult (api c.1) c.2, [c.1])
    else (InvokeResult.response ⟨true, "Invalid arguments for tool: " ++ name⟩, [])
  else (InvokeResult.toolNotFound name, [])

/-- An always-succeeding collaborator used by concrete witnesses. -/
def constOkApi : Api := fun _ => Except.ok "ok"


/-! ## Dispatcher claims -/

/-- C1: the dispatcher's fixed tool set is exactly the nine tools of the
spec's table; invoking any of the nine with valid arguments and resolvable
credentials dispatches to a handler that issues its external call, and only
a name outside the fixed set yields the tool-not-found rejection. -/
theorem claim_C1_fixed_toolset (api : Api) (env : EnvCreds) (today : ℤ)
    (name : String) (args : ToolArgs) :
    toolNames = ["get_my_profile", "list_active_projects", "log_time",
      "get_time_entries", "delete_time_entry", "start_timer", "stop_timer",
      "restart_timer", "get_running_timer"] ∧
    (name ∈ toolNames → validArgs name args = true →
      (getCredentials args env).isOk = true →
      (∃ r, (invoke api env today name args).1 = InvokeResult.response r) ∧
      (invoke api env today name args).2 ≠ []) ∧
    (name ∉ toolNames →
      invoke api env today name args = (InvokeResult.toolNotFound name, [])) := by
  refine ⟨rfl, fun hmem hval hok => ?_, fun hmem => ?_⟩
  · unfold invoke
    rw [if_pos hmem, if_pos hval]
    cases hc : getCredentials args env with
    | error msg => rw [hc] at hok; exact absurd hok (by simp [Except.isOk, Except.toBool])
    | ok v =>
      constructor
      · cases hr : api (toolCall name today args).1 with
        | ok s => exact ⟨⟨false, (toolCall name today args).2 s⟩, by simp [apiResult, hr]⟩
        | error e => exact ⟨⟨true, "Harvest API Error: " ++ e⟩, by simp [apiResult, hr]⟩
      · simp
  · unfold invoke
    rw [if_neg hmem]

/-- Witness for C1: `start_timer` (a spec-modelled timer tool) issues its
external call, and an unknown name is rejected with no call. -/
theorem claim_C1_witness :
    (invoke constOkApi (EnvCreds.mk none none) 0 "start_timer"
      (ToolArgs.mk (some "tok") (some "acct") (some 1) (some 2) none none none
        none none none none)).2 ≠ [] ∧
    invoke constOkApi (EnvCreds.mk none none) 0 "bogus_tool"
      (ToolArgs.mk (some "tok") (some "acct") none none none none none
        none none none none) = (InvokeResult.toolNotFound "bogus_tool", []) := by
  constructor
  · exact ((claim_C1_fixed_toolset constOkApi (EnvCreds.mk none none) 0 "start_timer"
      (ToolArgs.mk (some "tok") (some "acct") (some 1) (some 2) none none none
        none none none none)).2.1 (by decide) (by decide) (by decide)).2
  · exact (claim_C1_fixed_toolset constOkApi (EnvCreds.mk none none) 0 "bogus_tool"
      (ToolArgs.mk (some "tok") (some "acct") none none none none none
        none none none none)).2.2 (by decide)

/-- The per-field credential rule of the amended C2, written from the spec's
data-model sentence: each field independently takes the explicit argument
when it is a non-empty string, otherwise the ambient environment value; the
combined pair must leave neither field empty. -/
def getCredentialsSpecPerField (args : ToolArgs) (env : EnvCreds) :
    Except String (String × String) :=
  let tok := if strTruthy args.access_token then args.access_token.getD ""
    else if strTruthy env.accessToken then env.accessToken.getD "" else ""
  let acc := if strTruthy args.account_id then args.account_id.getD ""
    else if strTruthy env.accountId then env.accountId.getD "" else ""
  if tok.isEmpty ∨ acc.isEmpty then Except.error missingCredsMsg
  else Except.ok (tok, acc)

theorem jsOrStr_eq_perField (a b : Option String) :
    jsOrStr a b = (if strTruthy a then a.getD ""
      else if strTruthy b then b.getD "" else "") := by
  cases a with
  | none =>
    cases b with
    | none => rfl
    | some t =>
      simp only [jsOrStr, strTruthy, Option.getD]
      by_cases ht : t.isEmpty
      · rw [if_neg (by simp), if_neg (by simp [ht])]
        rw [String.isEmpty_iff] at ht
        exact ht
      · rw [if_neg (by simp), if_pos (by simp [ht])]
  | some u =>
    cases b with
    | none =>
      simp only [jsOrStr, strTruthy, Option.getD]
      by_cases hu : u.isEmpty
      · rw [if_pos hu, if_neg (by simp [hu]), if_neg (by simp)]
      · rw [if_neg hu, if_pos (by simp [hu])]
    | some t =>
      simp only [jsOrStr, strTruthy, Option.getD]
      by_cases hu : u.isEmpty
      · by_cases ht : t.isEmpty
        · rw [if_pos hu, if_neg (by simp [hu]), if_neg (by simp [ht])]
          rw [String.isEmpty_iff] at ht
          exact ht
        · rw [if_pos hu, if_neg (by simp [hu]), if_pos (by simp [ht])]
      · rw [if_neg hu, if_pos (by simp [hu])]

/-- C2 amended: credential resolution is per-field, and when both explicit
fields are non-empty the environment is ignored entirely. -/
theorem claim_C2_perfield_credentials (args : ToolArgs) (env : EnvCreds) :
    getCredentials args env = getCredentialsSpecPerField args env ∧
    (strTruthy args.access_token = true → strTruthy args.account_id = true →
      ∀ env' : EnvCreds, getCredentials args env = getCredentials args env') := by
  constructor
  · unfold getCredentials getCredentialsSpecPerField
    rw [jsOrStr_eq_perField, jsOrStr_eq_perField]
  · intro htok hacc env'
    have h : ∀ e : EnvCreds, getCredentials args e =
        (if (args.access_token.getD "").isEmpty ∨ (args.account_id.getD "").isEmpty
         then Except.error missingCredsMsg
         else Except.ok (args.access_token.getD "", args.account_id.getD "")) := by
      intro e
      unfold getCredentials
      rw [jsOrStr_eq_perField, jsOrStr_eq_perField, if_pos htok, if_pos hacc]
    rw [h env, h env']

/-- Witness for C2 amended: with both fields explicit, two entirely different
environments resolve the same credentials. -/
theorem claim_C2_witness :
    getCredentials (ToolArgs.mk (some "argtok") (some "argacc") none none none none none
        none none none none) (EnvCreds.mk (some "envtok") (some "envacc")) =
      getCredentials (ToolArgs.mk (some "argtok") (some "argacc") none none none none none
        none none none none) (EnvCreds.mk none none) :=
  (claim_C2_perfield_credentials
    (ToolArgs.mk (some "argtok") (some "argacc") none none none none none
      none none none none) (EnvCreds.mk (some "envtok") (some "envacc"))).2
    (by decide) (by decide) (EnvCreds.mk none none)

/-- Counterexample to C2 as stated: supplying only the explicit token (no
explicit account id) does not fall back to the ambient pair -- the token is
taken from the arguments and only the account id from the environment. -/
theorem claim_C2_counterexample :
    suppliesBoth (some "argtok") none = false ∧
    getCredentials (ToolArgs.mk (some "argtok") none none none none none none
        none none none none) (EnvCreds.mk (some "envtok") (some "envacc")) =
      Except.ok ("argtok", "envacc") ∧
    (("argtok", "envacc") : String × String) ≠ ("envtok", "envacc") := by
  refine ⟨by decide, rfl, by decide⟩

/-- C3 amended: whenever the per-field combined pair still misses a field --
and the arguments pass schema validation -- the invocation returns the
`isError` envelope whose message names both `access_token` and `account_id`,
and no external call is issued. -/
theorem claim_C3_missing_credentials (api : Api) (env : EnvCreds) (today : ℤ)
    (name : String) (args : ToolArgs)
    (hmem : name ∈ toolNames) (hval : validArgs name args = true)
    (hmiss : (jsOrStr args.access_token env.accessToken).isEmpty = true ∨
      (jsOrStr args.account_id env.accountId).isEmpty = true) :
    invoke api env today name args =
      (InvokeResult.response ⟨true, missingCredsMsg⟩, []) ∧
    "access_token".data <:+: missingCredsMsg.data ∧
    "account_id".data <:+: missingCredsMsg.data := by
  refine ⟨?_, by decide, by decide⟩
  unfold invoke
  rw [if_pos hmem, if_pos hval]
  have hc : getCredentials args env = Except.error missingCredsMsg := by
    unfold getCredentials
    rw [if_pos (by
      rcases hmiss with h | h
      · exact Or.inl (by simp [h])
      · exact Or.inr (by simp [h]))]
  rw [hc]

/-- Witness for C3 amended: with no credentials anywhere, `get_my_profile`
returns the missing-credential envelope and issues no call. -/
theorem claim_C3_witness :
    invoke constOkApi (EnvCreds.mk none none) 0 "get_my_profile"
      (ToolArgs.mk none none none none none none none none none none none) =
      (InvokeResult.response ⟨true, missingCredsMsg⟩, []) :=
  (claim_C3_missing_credentials constOkApi (EnvCreds.mk none none) 0 "get_my_profile"
    (ToolArgs.mk none none none none none none none none none none none)
    (by decide) (by decide) (by decide)).1

/-- Counterexample to C3 as stated: with the token explicit and the account
id only ambient, neither single source supplies both fields, yet the
invocation succeeds and the external call is attempted. -/
theorem claim_C3_counterexample :
    suppliesBoth (some "argtok") none = false ∧
    suppliesBoth none (some "envacc") = false ∧
    (invoke constOkApi (EnvCreds.mk none (some "envacc")) 0 "get_my_profile"
      (ToolArgs.mk (some "argtok") none none none none none none
        none none none none)).1 =
      InvokeResult.response ⟨false, "Authenticated as: ok"⟩ ∧
    (invoke constOkApi (EnvCreds.mk none (some "envacc")) 0 "get_my_profile"
      (ToolArgs.mk (some "argtok") none none none none none none
        none none none none)).2 = [ApiCall.mk "GET" "/users/me" [] none] := by
  refine ⟨by decide, by decide, by decide, by decide⟩

/-- C4: in `get_time_entries`, a supplied `from` with omitted `to` yields the
single-day range on the resolved `from` value; with both omitted, both
default to today's canonical date; the resolved range is what the outgoing
query carries. -/
theorem claim_C4_to_defaults_to_from (today : ℤ) (f : String) (hf : f ≠ "")
    (args : ToolArgs) (hfrom : args.fromArg = some f) (hto : args.toArg = none) :
    (timeEntriesRange today args).2 = (timeEntriesRange today args).1 ∧
    (timeEntriesRange today args).1 = parseRelativeDate today f ∧
    (∀ args2 : ToolArgs, args2.fromArg = none → args2.toArg = none →
      timeEntriesRange today args2 = (formatDate today, formatDate today)) ∧
    (toolCall "get_time_entries" today args).1.query =
      buildTimeEntriesQuery (timeEntriesRange today args).1
        (timeEntriesRange today args).2 args.project_id args.user_id := by
  have hfi : f.isEmpty = false := by
    cases hfi : f.isEmpty
    · rfl
    · exact absurd ((String.isEmpty_iff f).mp hfi) hf
  have hs : strTruthy (some f) = true := by simp [strTruthy, hfi]
  refine ⟨?_, ?_, ?_, rfl⟩
  · simp [timeEntriesRange, hfrom, hto, hs, strTruthy, hfi]
  · simp [timeEntriesRange, hfrom, hto, hs, strTruthy, hfi]
  · intro args2 h1 h2
    unfold timeEntriesRange
    rw [h1, h2]
    rfl

/-- Witness for C4: `from: yesterday` with no `to`, today being Wednesday
2026-02-04, yields the single-day range 2026-02-03 to 2026-02-03. -/
theorem claim_C4_witness :
    (timeEntriesRange 20488 (ToolArgs.mk none none none none none none none
      (some "yesterday") none none none)).1 = "2026-02-03" ∧
    (timeEntriesRange 20488 (ToolArgs.mk none none none none none none none
      (some "yesterday") none none none)).2 = "2026-02-03" := by
  have h := claim_C4_to_defaults_to_from 20488 "yesterday" (by decide)
    (ToolArgs.mk none none none none none none none (some "yesterday") none none none)
    rfl rfl
  exact ⟨h.2.1.trans (by decide), (h.1.trans h.2.1).trans (by decide)⟩

/-- C10: the `project_id` and `user_id` filters enter the outgoing query only
when the argument is truthy; the value `0` sends the same unfiltered query as
omitting the argument. -/
theorem claim_C10_truthy_filters (fromDate toDate : String) (pid uid : Option ℤ) :
    buildTimeEntriesQuery fromDate toDate (some 0) uid =
      buildTimeEntriesQuery fromDate toDate none uid ∧
    buildTimeEntriesQuery fromDate toDate pid (some 0) =
      buildTimeEntriesQuery fromDate toDate pid none ∧
    (numTruthy pid = false → buildTimeEntriesQuery fromDate toDate pid uid =
      buildTimeEntriesQuery fromDate toDate none uid) ∧
    (numTruthy uid = false → buildTimeEntriesQuery fromDate toDate pid uid =
      buildTimeEntriesQuery fromDate toDate pid none) := by
  refine ⟨?_, ?_, fun hp => ?_, fun hu => ?_⟩
  · unfold buildTimeEntriesQuery
    rw [show numTruthy (some 0) = false from by decide]
    simp [numTruthy]
  · unfold buildTimeEntriesQuery
    rw [show numTruthy (some 0) = false from by decide]
    simp [numTruthy]
  · unfold buildTimeEntriesQuery
    rw [hp]
    simp [numTruthy]
  · unfold buildTimeEntriesQuery
    rw [hu]
    simp [numTruthy]

/-- Witness for C10: a zero `project_id` with omitted `user_id` sends the
same query as omitting both. -/
theorem claim_C10_witness :
    buildTimeEntriesQuery "2026-02-01" "2026-02-05" (some 0) none =
      buildTimeEntriesQuery "2026-02-01" "2026-02-05" none none :=
  (claim_C10_truthy_filters "2026-02-01" "2026-02-05" (some 0) none).2.2.1 (by decide)

end HarvestMcp
